import Mathlib

/-
Verification of grisbi2ledger.py against its specification.

Shallow embedding conventions:
* Python dicts are association lists `List (Nat × α)` in insertion order;
  `sorted(dict.keys())` iterations become iterations over `sortNats`/`sortPairs`.
* The transaction dict is split into the key list `Data.txnKeys` (the dict, in
  insertion order; `del` removes keys from it) and the immortal `Data.heap`
  holding every transaction object ever loaded.  Deleting a transaction from the
  dict does not destroy the object: children/contra references keep pointing
  into the heap, exactly as Python object references survive `del d[k]`.
* Object references that Python resolves to direct pointers are stored as the
  referee's identity number; dereferencing a pointer never fails in Python, so
  such lookups use `getD` with a default record (only unreachable states fall
  through to the default).  Operations that can genuinely raise in Python
  (`del` of a missing key, `min()` of an empty sequence, attribute access on
  `None`) are modelled in `Except String`.
* Fixed-point two-decimal amounts (`decimal.Decimal`) are integers counted in
  cents; exchange rates are exact rationals (no claim depends on the 28-digit
  context of `decimal`).  Dates are abstracted to `Nat` ordinals: no claim
  depends on the textual form of a date, only on equality, order and presence.
-/

set_option maxHeartbeats 4000000
set_option maxRecDepth 4096

/-- Concatenation of the lists produced for each element, in order: the lines a
Python loop writes, or the items it appends. -/
def catMap {α β : Type} (f : α → List β) : List α → List β
  | [] => []
  | a :: l => f a ++ catMap f l

theorem mem_catMap {α β : Type} {f : α → List β} {b : β} :
    ∀ {l : List α}, b ∈ catMap f l ↔ ∃ a ∈ l, b ∈ f a := by
  intro l
  induction l with
  | nil => simp [catMap]
  | cons a l ih => simp [catMap, ih]

theorem catMap_congr {α β : Type} {f g : α → List β} :
    ∀ {l : List α}, (∀ a ∈ l, f a = g a) → catMap f l = catMap g l := by
  intro l
  induction l with
  | nil => intro; rfl
  | cons a l ih =>
      intro h
      simp only [catMap]
      rw [h a (by simp), ih (fun x hx => h x (by simp [hx]))]

/-- Insertion of a key into an ascending list of keys (used to model
`sorted(dict.keys())`). -/
def insNat (a : Nat) : List Nat → List Nat
  | [] => [a]
  | b :: l => if a ≤ b then a :: b :: l else b :: insNat a l

/-- Ascending sort of a key list, `sorted(keys)`. -/
def sortNats (l : List Nat) : List Nat := l.foldr insNat []

theorem mem_insNat {x a : Nat} : ∀ {l : List Nat}, x ∈ insNat a l ↔ x = a ∨ x ∈ l := by
  intro l
  induction l with
  | nil => simp [insNat]
  | cons b l ih =>
      by_cases h : a ≤ b
      · simp [insNat, h]
      · simp [insNat, h, ih]; tauto

theorem mem_sortNats {x : Nat} : ∀ {l : List Nat}, x ∈ sortNats l ↔ x ∈ l := by
  intro l
  induction l with
  | nil => simp [sortNats]
  | cons b l ih => simp [sortNats, List.foldr] at ih ⊢; simp [mem_insNat, ih]

/-- Insertion of a keyed entry into a list sorted by ascending key. -/
def insPair {α : Type} (x : Nat × α) : List (Nat × α) → List (Nat × α)
  | [] => [x]
  | y :: l => if x.1 ≤ y.1 then x :: y :: l else y :: insPair x l

/-- Iterating a dict in `sorted(keys)` order, entry by entry; equivalent to
`for i in sorted(d.keys()): v = d[i]` because dict keys are unique. -/
def sortPairs {α : Type} : List (Nat × α) → List (Nat × α) := List.foldr insPair []

theorem mem_insPair {α : Type} {x y : Nat × α} :
    ∀ {l : List (Nat × α)}, x ∈ insPair y l ↔ x = y ∨ x ∈ l := by
  intro l
  induction l with
  | nil => simp [insPair]
  | cons b l ih =>
      by_cases h : y.1 ≤ b.1
      · simp [insPair, h]
      · simp [insPair, h, ih]; tauto

theorem mem_sortPairs {α : Type} {x : Nat × α} :
    ∀ {l : List (Nat × α)}, x ∈ sortPairs l ↔ x ∈ l := by
  intro l
  induction l with
  | nil => simp [sortPairs]
  | cons b l ih => simp [sortPairs, List.foldr] at ih ⊢; simp [mem_insPair, ih]

/-- Dict lookup, `d[k]` as an `Option` (first entry with the key). -/
def lookupA {α : Type} : List (Nat × α) → Nat → Option α
  | [], _ => none
  | (a, b) :: t, k => if a = k then some b else lookupA t k

/-- Dict assignment `d[k] = v`: replace in place when the key exists, append a
new entry otherwise (CPython insertion-order semantics). -/
def updateAssoc {α : Type} : List (Nat × α) → Nat → α → List (Nat × α)
  | [], k, v => [(k, v)]
  | (a, b) :: t, k, v => if a = k then (a, v) :: t else (a, b) :: updateAssoc t k v

/-- Python `set.add`: append the element unless already present.  Iteration
order of the set is abstracted as insertion order: the later deletion loop
succeeds or fails, and yields the same mapping, regardless of the order in
which the distinct set members are deleted. -/
def insertSet (s : List Nat) (c : Nat) : List Nat := if c ∈ s then s else s ++ [c]

/-- Python `del d[k]` on the transaction-dict key list: removing an absent key
raises `KeyError`. -/
def delKey (ks : List Nat) (k : Nat) : Except String (List Nat) :=
  if k ∈ ks then .ok (ks.erase k) else .error ("KeyError: " ++ toString k)

/-- Substring test, `pat in s` for a non-empty pattern. -/
def containsSub (s pat : String) : Bool := (s.splitOn pat).length != 1

/-- Two-decimal fixed-point rendering of an amount in cents; agrees with
`str(decimal.Decimal)` on all two-decimal inputs the program handles. -/
def pad2 (n : Nat) : String := if n < 10 then "0" ++ toString n else toString n

def centsStr (n : Int) : String :=
  let sign := if n < 0 then "-" else ""
  let m := n.natAbs
  sign ++ toString (m / 100) ++ "." ++ pad2 (m % 100)

/-- Exact rational arithmetic on explicit fractions (the denominator is
positive in every state the program builds).  `decimal.Decimal` values are
embedded as exact fractions; an explicit representation is used instead of
`Rat` only so that every scenario theorem evaluates inside the kernel. -/
structure Q where
  num : Int
  den : Int
  deriving Repr, DecidableEq

def qOne : Q := ⟨1, 1⟩

def qMul (a b : Q) : Q := ⟨a.num * b.num, a.den * b.den⟩

/-- `Decimal("1.00") / rate`, the reciprocal of a rate (sign-normalised so the
denominator stays positive). -/
def qInv (a : Q) : Q := if a.num < 0 then ⟨-a.den, -a.num⟩ else ⟨a.den, a.num⟩

/-- An amount in cents as an exact fraction. -/
def ratOfCents (n : Int) : Q := ⟨n, 100⟩

/-- `Decimal.quantize(Decimal("0.01"))` (default ROUND_HALF_EVEN), returning
cents: floor of `q·100`, with the half-even correction decided on the
fractional part `rn / y.den`. -/
def roundHalfEvenCents (q : Q) : Int :=
  let y := qMul q ⟨100, 1⟩
  let f := Int.fdiv y.num y.den
  let rn := y.num - f * y.den
  if 2 * rn < y.den then f
  else if y.den < 2 * rn then f + 1
  else if f % 2 = 0 then f else f + 1

/-- Textual form of an exact fraction (the `Decimal` form is abstracted; no
claim exercises this rendering). -/
def ratStr (q : Q) : String :=
  if q.den = 1 then toString q.num else toString q.num ++ "/" ++ toString q.den

/-- `"{}".format(date)`: a date prints as its ordinal, `None` prints as
`"None"` (dates are abstracted to ordinals). -/
def dateStr : Option Nat → String
  | none => "None"
  | some n => toString n

/-- Account record after reference resolution (currency held by number). -/
structure Account where
  number : Nat
  name : String
  currency : Nat
  initial_balance : Int
  kind : Nat
  branch_code : Option String
  account_number : Option String
  deriving Repr, DecidableEq

/-- Subcategory record (number unique only within the parent category). -/
structure SubCategory where
  number : Nat
  name : String
  category : Nat
  deriving Repr, DecidableEq

/-- Category record; `sub_categories` is populated during resolution. -/
structure Category where
  number : Nat
  name : String
  is_expenses : Bool
  sub_categories : List (Nat × SubCategory)
  deriving Repr, DecidableEq

/-- Currency record; `ledger_symbol` is the display symbol decided during
resolution. -/
structure Currency where
  number : Nat
  name : String
  symbol : Option String
  abbreviation : String
  ledger_symbol : String
  deriving Repr, DecidableEq

structure Party where
  number : Nat
  name : String
  deriving Repr, DecidableEq

/-- Reconcile record after resolution (account held by number). -/
structure Reconcile where
  number : Nat
  name : String
  account : Nat
  date : Option Nat
  balance : Int
  deriving Repr, DecidableEq

/-- Transaction record after reference resolution: every object reference is
the referee's identity number. -/
structure Transaction where
  number : Nat
  account : Nat
  date : Option Nat
  currency : Nat
  amount : Int
  change_between : Bool
  exchange_rate : Q
  party : Option Nat
  category : Option Nat
  sub_category : Option Nat
  is_split : Bool
  notes : Option String
  reconciled : Bool
  reconciliation : Option Nat
  bank_reference : Option String
  contra_transaction : Option Nat
  mother : Option Nat
  children : List Nat
  deriving Repr, DecidableEq

/-- The resolved Grisbi file.  `txnKeys` is the transaction dict's key list in
insertion order; `heap` holds every transaction object (see file header). -/
structure Data where
  accounts : List (Nat × Account)
  categories : List (Nat × Category)
  currencies : List (Nat × Currency)
  parties : List (Nat × Party)
  reconciles : List (Nat × Reconcile)
  txnKeys : List Nat
  heap : List (Nat × Transaction)
  deriving Repr, DecidableEq

def defaultAccount : Account := ⟨0, "", 0, 0, 0, none, none⟩

def defaultCategory : Category := ⟨0, "", false, []⟩

def defaultCurrency : Currency := ⟨0, "", none, "", ""⟩

def defaultParty : Party := ⟨0, ""⟩

def defaultReconcile : Reconcile := ⟨0, "", 0, none, 0⟩

def defaultTransaction : Transaction :=
  ⟨0, 0, none, 0, 0, false, qOne, none, none, none, false, none, false, none, none, none, none, []⟩

/-- Dereference a transaction object (total: Python pointers cannot dangle). -/
def heapGet (d : Data) (k : Nat) : Transaction := (lookupA d.heap k).getD defaultTransaction

def accGet (d : Data) (k : Nat) : Account := (lookupA d.accounts k).getD defaultAccount

def catGet (d : Data) (k : Nat) : Category := (lookupA d.categories k).getD defaultCategory

def curGet (d : Data) (k : Nat) : Currency := (lookupA d.currencies k).getD defaultCurrency

def partyGet (d : Data) (k : Nat) : Party := (lookupA d.parties k).getD defaultParty

def recGet (d : Data) (k : Nat) : Reconcile := (lookupA d.reconciles k).getD defaultReconcile

/-- `Account.ledger_name`: Liabilities-qualified for liability accounts (kind
2), Assets-qualified otherwise. -/
def ledgerName (a : Account) : String :=
  let kindName := if a.kind = 2 then "Liabilities" else "Assets"
  kindName ++ ":" ++ a.name

/-- `Currency.resolve_references`: the display symbol is the abbreviation when
there is no symbol or some currency with a strictly smaller number shares the
symbol, and the symbol itself otherwise. -/
def ledgerSymbolOf (c : Currency) (currencies : List (Nat × Currency)) : String :=
  if c.symbol.isNone || currencies.any (fun p => decide (p.2.number < c.number) && p.2.symbol == c.symbol)
  then c.abbreviation
  else c.symbol.getD ""

/-- `Transaction.effective_exchange_rate`: 1 when the transaction is in the
account's native currency, else the raw rate or its reciprocal depending on
`change_between`. -/
def effectiveExchangeRate (d : Data) (t : Transaction) : Q :=
  let acc := accGet d t.account
  if t.currency = acc.currency then qOne
  else if ¬t.change_between then t.exchange_rate
  else qInv t.exchange_rate

/-- A reference field during the load phase: `raw n` is the source-assigned
integer identifier not yet resolved, `res n` is a resolved direct reference to
the object registered under `n`. -/
inductive RRef
  | raw (n : Nat)
  | res (n : Nat)
  deriving Repr, DecidableEq

/-- Transaction object during loading and resolution (`Transaction.__init__`
output): reference fields are `RRef`s, everything else as in `Transaction`. -/
structure TxnL where
  number : Nat
  account : RRef
  date : Option Nat
  currency : RRef
  amount : Int
  change_between : Bool
  exchange_rate : Q
  party : Option RRef
  category : Option RRef
  sub_category : Option RRef
  is_split : Bool
  notes : Option String
  reconciled : Bool
  reconciliation : Option RRef
  bank_reference : Option String
  contra_transaction : Option RRef
  mother : Option RRef
  children : List Nat
  deriving Repr, DecidableEq

/-- The raw attributes of one XML `Transaction` element, after the `int`,
`Decimal` and date conversions applied on access (amounts in cents, dates as
ordinals, strings kept raw with their `"(null)"` sentinel). -/
structure TxnRaw where
  Ac : Nat
  Nb : Nat
  Dt : Option Nat
  Cu : Nat
  Am : Int
  Exb : Nat
  Exr : Q
  Exf : Int
  Pa : Nat
  Ca : Nat
  Sca : Nat
  Br : Nat
  No : String
  Ma : Nat
  Re : Nat
  Ba : String
  Trt : Nat
  Mo : Nat
  deriving Repr, DecidableEq

/-- `Transaction.__init__`: parse and type-check one record.  An integer 0 in
the Party, Category, SubCategory, contra or mother attribute (and in `Re`) is
`int(...) or None`, i.e. stored as `None`. -/
def txnInit (r : TxnRaw) : Except String TxnL :=
  if r.Exb ≠ 0 ∧ r.Exb ≠ 1 then .error "AssertionError" else
  if r.Exf ≠ 0 then .error "Exchange fees are not supported." else
  if r.Br ≠ 0 ∧ r.Br ≠ 1 then .error "AssertionError" else
  if r.Ma ≠ 0 ∧ r.Ma ≠ 3 then .error "AssertionError" else
  .ok
    { number := r.Nb
      account := RRef.raw r.Ac
      date := r.Dt
      currency := RRef.raw r.Cu
      amount := r.Am
      change_between := r.Exb == 1
      exchange_rate := r.Exr
      party := if r.Pa = 0 then none else some (RRef.raw r.Pa)
      category := if r.Ca = 0 then none else some (RRef.raw r.Ca)
      sub_category := if r.Sca = 0 then none else some (RRef.raw r.Sca)
      is_split := r.Br == 1
      notes := if r.No = "(null)" then none else some r.No
      reconciled := r.Ma == 3
      reconciliation := if r.Ma == 3 then (if r.Re = 0 then none else some (RRef.raw r.Re)) else none
      bank_reference := if r.Ba = "(null)" then none else some r.Ba
      contra_transaction := if r.Trt = 0 then none else some (RRef.raw r.Trt)
      mother := if r.Mo = 0 then none else some (RRef.raw r.Mo)
      children := [] }

/-- The entity mappings available when transactions resolve (all other kinds
already loaded and resolved); `catSubs` is each category's subcategory keys. -/
structure LoadEnv where
  accounts : List Nat
  categories : List Nat
  currencies : List Nat
  parties : List Nat
  reconciles : List Nat
  catSubs : List (Nat × List Nat)
  deriving Repr, DecidableEq

/-- Resolve one reference through a mapping: `data.xxx[n]` raises `KeyError`
when `n` is absent.  A `res` value can only reach here through the unresolved
copy a child takes from its mother, never through a transaction's own single
resolution; indexing a dict with an object would likewise raise in Python. -/
def resolveRef (ids : List Nat) (x : RRef) : Except String RRef :=
  match x with
  | .raw n => if n ∈ ids then .ok (RRef.res n) else .error ("KeyError: " ++ toString n)
  | .res n => .error ("KeyError: object key " ++ toString n)

def resolveOptRef (ids : List Nat) (x : Option RRef) : Except String (Option RRef) :=
  match x with
  | none => .ok none
  | some r => (resolveRef ids r).map some

/-- `Transaction.resolve_references` for the transaction registered under `k`:
resolve every reference, then, when a mother is present, register under the own
number in the mother's child mapping, inherit the mother's date when the own
date is absent, and copy the mother's current reconciled flag and
reconciliation field value as they stand at this moment (a transaction that is
its own mother would alias itself in Python and is not modelled exactly; no
claim involves one). -/
def resolveTxnL (env : LoadEnv) (st : List (Nat × TxnL)) (k : Nat) :
    Except String (List (Nat × TxnL)) :=
  match lookupA st k with
  | none => .error ("KeyError: " ++ toString k)
  | some t => do
    let acc ← resolveRef env.accounts t.account
    let cur ← resolveRef env.currencies t.currency
    let par ← resolveOptRef env.parties t.party
    let cat ← resolveOptRef env.categories t.category
    let sub ←
      match t.sub_category with
      | none => pure none
      | some s =>
        match cat, s with
        | some (RRef.res cn), RRef.raw sn =>
            if sn ∈ (lookupA env.catSubs cn).getD [] then pure (some (RRef.res sn))
            else .error ("KeyError: " ++ toString sn)
        | some _, _ => .error "KeyError: object key"
        | none, _ => .error "AttributeError: NoneType has no attribute sub_categories"
    let rcl ← resolveOptRef env.reconciles t.reconciliation
    let con ← resolveOptRef (st.map Prod.fst) t.contra_transaction
    let mot ← resolveOptRef (st.map Prod.fst) t.mother
    let t1 : TxnL :=
      { t with
        account := acc, currency := cur, party := par, category := cat,
        sub_category := sub, reconciliation := rcl, contra_transaction := con,
        mother := mot }
    match mot with
    | some (RRef.res m) =>
      match lookupA st m with
      | none => .error ("KeyError: " ++ toString m)
      | some tm =>
        let tm' := { tm with children := tm.children ++ [t1.number] }
        let t2 := { t1 with date := if t1.date = none then tm.date else t1.date }
        let t3 := { t2 with reconciled := tm.reconciled, reconciliation := tm.reconciliation }
        pure (updateAssoc (updateAssoc st m tm') k t3)
    | _ => pure (updateAssoc st k t1)

/-- The transaction leg of the resolution pass: `for j in transactions:
transactions[j].resolve_references(data)`, over the keys in insertion order. -/
def resolveTxns (env : LoadEnv) (st : List (Nat × TxnL)) :
    Except String (List (Nat × TxnL)) :=
  (st.map Prod.fst).foldlM (resolveTxnL env) st

/-- Modelled from the spec: the source calls `Transaction.all_transactions`
(validator check 9 and the renderer's reconciliation pre-pass) but the method
is not present in the provided source file.  Per the spec (glossary "Flattened
set" and section 4.4 step 4) it yields the transaction itself, then each split
child in stored order, each child followed by its contra when present. -/
def allTransactions (d : Data) (t : Transaction) : List Transaction :=
  t :: catMap
    (fun c =>
      let ct := heapGet d c
      ct :: (match ct.contra_transaction with
             | some x => [heapGet d x]
             | none => []))
    t.children

/-- Check 1: a non-split transaction must have a party. -/
def msgs1 (d : Data) (i : Nat) : List String :=
  let t := heapGet d i
  if t.party = none ∧ t.is_split = false then
    let n := t.number
    let an := (accGet d t.account).name
    let ds := dateStr t.date
    [s!"Transaction {n} in account {an} on date {ds} has no party and is not a split."]
  else []

/-- Check 2: split iff it has children. -/
def msgs2 (d : Data) (i : Nat) : List String :=
  let t := heapGet d i
  let n := t.number
  let an := (accGet d t.account).name
  let ds := dateStr t.date
  if t.is_split ∧ t.children = [] then
    [s!"Transaction {n} in account {an} on date {ds} is a split but has no children."]
  else if t.is_split = false ∧ t.children ≠ [] then
    [s!"Transaction {n} in account {an} on date {ds} is not a split but has children."]
  else []

/-- Check 3: the contra relationship must be symmetric.  Building the finding
reads `txn.contra_transaction.contra_transaction.number`, which raises
`AttributeError` when the contra's contra is `None`. -/
def msgs3 (d : Data) (i : Nat) : Except String (List String) :=
  let t := heapGet d i
  match t.contra_transaction with
  | none => .ok []
  | some c =>
    let ct := heapGet d c
    match ct.contra_transaction with
    | none => .error "AttributeError: NoneType has no attribute number"
    | some cc =>
        if cc ≠ i then
          let n := t.number
          let an := (accGet d t.account).name
          let ds := dateStr t.date
          let cn := ct.number
          let can := (accGet d ct.account).name
          let cds := dateStr ct.date
          let ccn := (heapGet d cc).number
          [s!"Transaction {n} in account {an} on date {ds} has contra transaction {cn} in account {can} on date {cds} but the latter transaction’s contra is {ccn}, not {n} as expected."]
            |> .ok
        else .ok []

/-- Check 4: a non-split transaction needs a category or a contra. -/
def msgs4 (d : Data) (i : Nat) : List String :=
  let t := heapGet d i
  if t.category = none ∧ t.contra_transaction = none ∧ t.is_split = false then
    let n := t.number
    let an := (accGet d t.account).name
    let ds := dateStr t.date
    [s!"Transaction {n} in account {an} on date {ds} has no category or contra and is not a split."]
  else []

/-- Check 5: no category or subcategory name with two spaces or a tab. -/
def msgs5 (d : Data) (i : Nat) : List String :=
  let cat := catGet d i
  let cn := cat.name
  (if containsSub cat.name "  " || containsSub cat.name "\t" then
     [s!"Category {cn} has two spaces or a tab in its name."]
   else []) ++
  catMap
    (fun p =>
      let sub := p.2
      let sn := sub.name
      if containsSub sub.name "  " || containsSub sub.name "\t" then
        [s!"Subcategory {cn}:{sn} has two spaces or a tab in its name."]
      else [])
    (sortPairs cat.sub_categories)

/-- Check 6: a transaction and its contra must not both be split children. -/
def msgs6 (d : Data) (i : Nat) : List String :=
  let t := heapGet d i
  match t.contra_transaction with
  | none => []
  | some c =>
    let contra := heapGet d c
    if t.mother ≠ none ∧ contra.mother ≠ none then
      let n := t.number
      let an := (accGet d t.account).name
      let ds := dateStr t.date
      let cn := contra.number
      let can := (accGet d contra.account).name
      let cds := dateStr contra.date
      [s!"Transaction {n} in account {an} on date {ds} has contra {cn} in account {can} on date {cds} and both are part of splits."]
    else []

/-- Lookup in the per-account date dict of check 7 (keys are nullable dates). -/
def lookupD (l : List (Option Nat × String)) (k : Option Nat) : Option String :=
  (l.find? (fun p => p.1 == k)).map (fun p => p.2)

def updateD : List (Option Nat × String) → Option Nat → String → List (Option Nat × String)
  | [], k, v => [(k, v)]
  | (a, b) :: t, k, v => if a = k then (a, v) :: t else (a, b) :: updateD t k v

/-- Check 8: reconciled iff a reconciliation is present (one direction is
guaranteed by loading); note the finding prints the dict key `i`. -/
def msgs8 (d : Data) (i : Nat) : List String :=
  let t := heapGet d i
  if t.reconciled ∧ t.reconciliation = none then
    let an := (accGet d t.account).name
    let ds := dateStr t.date
    [s!"Transaction {i} in account {an} on date {ds} is reconciled but has no reconciliation."]
  else []

/-- Check 9: every transaction in the flattened set that is reconciled must be
reconciled against a Reconcile for its own account. -/
def msgs9 (d : Data) (i : Nat) : List String :=
  let outer := heapGet d i
  catMap
    (fun t =>
      if t.reconciled ∧ t.reconciliation ≠ none then
        let rn := t.reconciliation.getD 0
        let rec0 := recGet d rn
        if rec0.account ≠ t.account then
          let n := t.number
          let an := (accGet d t.account).name
          let ds := dateStr t.date
          let rname := rec0.name
          let raname := (accGet d rec0.account).name
          [s!"Transaction {n} in account {an} on date {ds} is reconciled by reconciliation {rname} on account {raname}."]
        else []
      else [])
    (allTransactions d outer)

/-- One `for` loop of `Data.check`: accumulate the printed findings and clear
the `ok` flag whenever a finding is printed. -/
def checkFold (f : Nat → List String) (ks : List Nat) (acc : List String × Bool) :
    List String × Bool :=
  ks.foldl (fun a k => let ms := f k; (a.1 ++ ms, if ms.isEmpty then a.2 else false)) acc

/-- Like `checkFold` for a loop whose finding construction can raise. -/
def checkFoldE (f : Nat → Except String (List String)) :
    List Nat → (List String × Bool) → Except String (List String × Bool)
  | [], acc => .ok acc
  | k :: ks, acc =>
    match f k with
    | .error e => .error e
    | .ok ms => checkFoldE f ks (acc.1 ++ ms, if ms.isEmpty then acc.2 else false)

/-- The check-7 loop over `reconciles.values()` in insertion order, carrying
the `seen` account-to-dates dict. -/
def checkFold7Go (d : Data) : List (Nat × Reconcile) →
    List (Nat × List (Option Nat × String)) → (List String × Bool) → List String × Bool
  | [], _, acc => acc
  | (_, rec0) :: rest, seen, acc =>
    let an := (accGet d rec0.account).number
    let inner := (lookupA seen an).getD []
    let ms :=
      match lookupD inner rec0.date with
      | some prev =>
        let rn := rec0.name
        let ran := (accGet d rec0.account).name
        let rds := dateStr rec0.date
        [s!"Reconciliation {rn} in account {ran} on date {rds} happened on the same day as reconciliation {prev}."]
      | none => []
    let seen' := updateAssoc seen an (updateD inner rec0.date rec0.name)
    checkFold7Go d rest seen' (acc.1 ++ ms, if ms.isEmpty then acc.2 else false)

/-- `Data.check`: run the nine sanity checks in order, collecting every finding
and the validity flag; building the check-3 finding can raise (see `msgs3`). -/
def Data.check (d : Data) : Except String (List String × Bool) :=
  let ks := sortNats d.txnKeys
  let a1 := checkFold (msgs1 d) ks ([], true)
  let a2 := checkFold (msgs2 d) ks a1
  match checkFoldE (msgs3 d) ks a2 with
  | .error e => .error e
  | .ok a3 =>
    let a4 := checkFold (msgs4 d) ks a3
    let a5 := checkFold (msgs5 d) (sortNats (d.categories.map Prod.fst)) a4
    let a6 := checkFold (msgs6 d) ks a5
    let a7 := checkFold7Go d d.reconciles [] a6
    let a8 := checkFold (msgs8 d) ks a7
    .ok (checkFold (msgs9 d) ks a8)

/-- Step-1 removal list of `Data.clean`: for every split transaction, every
child's number followed, when the child has a contra, by that contra's number,
scanning `transactions.values()` in insertion order (duplicates possible; each
is deleted in turn and a second deletion raises `KeyError`). -/
def splitRemovals (d : Data) : List Nat :=
  catMap
    (fun j =>
      let t := heapGet d j
      if t.is_split then
        catMap
          (fun c =>
            c :: (match (heapGet d c).contra_transaction with
                  | some x => [x]
                  | none => []))
          t.children
      else [])
    d.txnKeys

/-- Step-2 removal set of `Data.clean`: scan the split-folded transactions in
ascending key order; for each not already marked removed that has a contra,
mark the contra removed. -/
def step2Set (d : Data) (ks : List Nat) : List Nat :=
  ks.foldl
    (fun s i =>
      if i ∈ s then s
      else
        match (heapGet d i).contra_transaction with
        | some c => insertSet s c
        | none => s)
    []

/-- `Data.clean`: delete split children and their contras, then delete one leg
of each transfer pair.  Deletions of the first phase are a list (duplicates
raise `KeyError` at the second deletion, exactly as `del` would). -/
def Data.clean (d : Data) : Except String Data :=
  match (splitRemovals d).foldlM delKey d.txnKeys with
  | .error e => .error e
  | .ok k1 =>
    match (step2Set d (sortNats k1)).foldlM delKey k1 with
    | .error e => .error e
    | .ok k2 => .ok { d with txnKeys := k2 }

/-- `Data._get_cleared_string`. -/
def clearedString (t : Transaction) : String := if t.reconciled then "* " else ""

/-- `Data._generate_acc_posting`: the account leg of a posting. -/
def genAccPosting (d : Data) (t : Transaction) (commentBankRef : Bool) : String :=
  let comment :=
    match commentBankRef, t.bank_reference with
    | true, some br => s!" ; Grisbi bank reference: {br}"
    | _, _ => ""
  let acc := accGet d t.account
  let cur := curGet d acc.currency
  let cs := clearedString t
  let ln := ledgerName acc
  let sym := cur.ledger_symbol
  let amt := centsStr (roundHalfEvenCents (qMul (ratOfCents t.amount) (effectiveExchangeRate d t)))
  s!"\t{cs}{ln}  {sym}{amt}{comment}\n"

/-- `Data._generate_cat_posting`: the category leg of a posting; reading
`txn.category.is_expenses` raises when the category is `None`. -/
def genCatPosting (d : Data) (t : Transaction) : Except String String :=
  match t.category with
  | none => .error "AttributeError: NoneType has no attribute is_expenses"
  | some cnum =>
    let cat := catGet d cnum
    let side := if cat.is_expenses then "Expenses" else "Income"
    let base := side ++ ":" ++ cat.name
    let target :=
      match t.sub_category with
      | none => base
      | some sn => base ++ ":" ++ ((lookupA cat.sub_categories sn).getD ⟨0, "", 0⟩).name
    let cur := curGet d t.currency
    let sym := cur.ledger_symbol
    let neg := centsStr (-t.amount)
    let acc := accGet d t.account
    let amount :=
      if t.currency ≠ acc.currency then
        let asym := (curGet d acc.currency).ledger_symbol
        let rs := ratStr (effectiveExchangeRate d t)
        s!"{sym}{neg} @ {asym}{rs}"
      else s!"{sym}{neg}"
    let cs := clearedString t
    .ok s!"\t{cs}{target}  {amount}\n"

/-- `Data._generate_reconciliation`: the synthetic reconciliation-marker
transaction, including one comment per transaction (or contra of one) in the
current transaction dict belonging to this reconciliation. -/
def genReconciliation (d : Data) (rec0 : Reconcile) : List String :=
  let rds := dateStr rec0.date
  let rn := rec0.name
  let includes :=
    catMap
      (fun i =>
        let outer := heapGet d i
        catMap
          (fun t =>
            match t with
            | none => []
            | some txn =>
              if txn.reconciliation = some rec0.number then
                let n := txn.number
                [s!"\t; Includes Grisbi transaction {n}\n"]
              else [])
          [some outer, outer.contra_transaction.map (heapGet d)])
      (sortNats d.txnKeys)
  let acc := accGet d rec0.account
  let ln := ledgerName acc
  let sym := (curGet d acc.currency).ledger_symbol
  let bal := centsStr rec0.balance
  [s!"{rds} Reconciliation\n", s!"\t; Grisbi reconciliation name: {rn}\n"] ++
    includes ++ [s!"\t* [{ln}]  ={sym}{bal}\n", "\n"]

/-- Commodity declarations, currencies in ascending key order. -/
def genCommodities (d : Data) : List String :=
  catMap
    (fun p =>
      let sym := p.2.ledger_symbol
      let nm := p.2.name
      [s!"commodity {sym}\n", s!"\tnote {nm}\n", "\n"])
    (sortPairs d.currencies)

/-- Account declarations, accounts in ascending key order. -/
def genAccounts (d : Data) : List String :=
  catMap
    (fun p =>
      let acc := p.2
      let ln := ledgerName acc
      let sym := (curGet d acc.currency).ledger_symbol
      let note :=
        match acc.account_number with
        | none => []
        | some an =>
          match acc.branch_code with
          | some bc => [s!"\tnote Account number {bc}-{an}\n"]
          | none => [s!"\tnote Account number {an}\n"]
      [s!"account {ln}\n", s!"\tassert commodity == \"{sym}\"\n"] ++ note ++ ["\n"])
    (sortPairs d.accounts)

/-- One comparison step of Python `min()`: keep the smaller, raising
`TypeError` when either side is `None`. -/
def minStep : Option Nat → Option Nat → Except String (Option Nat)
  | some a, some b => .ok (if b < a then some b else some a)
  | _, _ => .error "TypeError: cannot compare date and NoneType"

/-- Python `min()` over the transaction dates: an empty iterable raises
`ValueError`; a single element is returned without comparison. -/
def minDates (l : List (Option Nat)) : Except String (Option Nat) :=
  match l with
  | [] => .error "ValueError: min() arg is an empty sequence"
  | x :: xs => xs.foldlM minStep x

/-- One opening-balance posting per account with a non-zero opening balance. -/
def openPosting (d : Data) (p : Nat × Account) : List String :=
  if p.2.initial_balance ≠ 0 then
    let ln := ledgerName p.2
    let sym := (curGet d p.2.currency).ledger_symbol
    let bal := centsStr p.2.initial_balance
    [s!"\t* {ln}  {sym}{bal}\n"]
  else []

/-- The lines of the initial-balances section for a given first date: the
Equity declaration, the dated opening transaction header, one cleared posting
per account with a non-zero opening balance (ascending key order), and the
balancing Equity posting. -/
def openingLines (d : Data) (fd : Option Nat) : List String :=
  let fds := dateStr fd
  ["account Equity:Opening Balance\n", "\n", s!"{fds} Opening Balances\n"] ++
    catMap (openPosting d) (sortPairs d.accounts) ++ ["\t* Equity:Opening Balance\n\n"]

/-- The initial-balances section: emitted only when some account has a
non-zero opening balance; the opening transaction is dated on the minimum
transaction date (which raises when the transaction dict is empty).  Python
writes the first two lines before computing the minimum; the partially
written output of a crashed run is not modelled. -/
def genOpening (d : Data) : Except String (List String) :=
  if d.accounts.any (fun p => decide (p.2.initial_balance ≠ 0)) then
    match minDates (d.txnKeys.map (fun k => (heapGet d k).date)) with
    | .error e => .error e
    | .ok fd => .ok (openingLines d fd)
  else .ok []

/-- `{i: None for i in self.accounts.keys()}`: the per-account reconciliation
tracker, keyed in account insertion order. -/
def initLast (d : Data) : List (Nat × Option Nat) :=
  d.accounts.map (fun p => (p.1, (none : Option Nat)))

/-- The reconciliation pre-pass of one rendered transaction: for every member
of the flattened set whose reconciliation differs from the tracked one of its
account, flush a marker for the tracked one (when any) and update the
tracker.  Reading the tracker raises `KeyError` on an unknown account. -/
def reconPrePass (d : Data) (t : Transaction)
    (last : List (Nat × Option Nat)) :
    Except String (List String × List (Nat × Option Nat)) :=
  (allTransactions d t).foldlM
    (fun a exact => do
      let an := (accGet d exact.account).number
      match lookupA a.2 an with
      | none => .error ("KeyError: " ++ toString an)
      | some lastV =>
        if exact.reconciliation ≠ lastV then
          let fl :=
            match lastV with
            | some r => genReconciliation d (recGet d r)
            | none => []
          pure (a.1 ++ fl, updateAssoc a.2 an exact.reconciliation)
        else pure a)
    (([] : List String), last)

/-- The distinct bank references of a transaction, its children (in ascending
key order) and their contras; Python collects them in a set, whose single
element is taken when exactly one exists. -/
def bankRefs (d : Data) (t : Transaction) : List String :=
  (t :: (sortNats t.children).map (heapGet d)).foldl
    (fun s c =>
      let s1 :=
        match c.bank_reference with
        | some br => if br ∈ s then s else s ++ [br]
        | none => s
      match c.contra_transaction.map (heapGet d) with
      | some ct =>
        match ct.bank_reference with
        | some br => if br ∈ s1 then s1 else s1 ++ [br]
        | none => s1
      | none => s1)
    ([] : List String)

/-- The lines of one rendered transaction body (header, comments, postings);
reading `txn.party.name` raises when the party is `None`, rendering a
category leg raises when the category is `None`. -/
def genOneTxn (d : Data) (t : Transaction) : Except String (List String) := do
  let brs := bankRefs d t
  let commentBankRef := decide (brs.length > 1)
  let codeBankRef :=
    if brs.length = 1 then
      let b0 := brs.headI
      s!"({b0}) "
    else ""
  let pname ←
    match t.party with
    | none => Except.error "AttributeError: NoneType has no attribute name"
    | some pn => pure (partyGet d pn).name
  let ds := dateStr t.date
  let n := t.number
  let header := s!"{ds} {codeBankRef}{pname}\n"
  let imported := s!"\t; Imported from Grisbi transaction {n}.\n"
  let noteLines :=
    match t.notes with
    | some no => [s!"\t; Grisbi notes: {no}\n"]
    | none => []
  let body ←
    if t.is_split then do
      let sym := (curGet d t.currency).ledger_symbol
      let amt := centsStr t.amount
      let splitCmt := s!"\t; Grisbi transaction was a split totalling {sym}{amt}.\n"
      let childLines ←
        (sortNats t.children).foldlM
          (fun acc j => do
            let child := heapGet d j
            match child.contra_transaction with
            | none => do
              let cp ← genCatPosting d child
              pure (acc ++ [cp])
            | some cx =>
              let contra := heapGet d cx
              let cn := contra.number
              pure (acc ++ [genAccPosting d contra commentBankRef,
                s!"\t; Grisbi transaction {cn} was the contra and was not imported separately.\n"]))
          ([] : List String)
      pure ([splitCmt, genAccPosting d t commentBankRef] ++ childLines ++ ["\n"])
    else
      match t.contra_transaction with
      | some cx =>
        let contra := heapGet d cx
        let cn := contra.number
        pure [genAccPosting d t commentBankRef, genAccPosting d contra commentBankRef,
          s!"\t; Grisbi transaction {cn} was the contra and was not imported separately.\n", "\n"]
      | none => do
        let cp ← genCatPosting d t
        pure [genAccPosting d t commentBankRef, cp, "\n"]
  pure ([header, imported] ++ noteLines ++ body)

/-- The main transaction walk in ascending key order, interleaving
reconciliation markers, returning the lines and the final tracker. -/
def genTxns (d : Data) (last0 : List (Nat × Option Nat)) :
    Except String (List String × List (Nat × Option Nat)) :=
  (sortNats d.txnKeys).foldlM
    (fun a i => do
      let t := heapGet d i
      let pre ← reconPrePass d t a.2
      let body ← genOneTxn d t
      pure (a.1 ++ pre.1 ++ body, pre.2))
    (([] : List String), last0)

/-- The final flush: `for i in last_reconcile:` iterates the tracker keys in
their stored (insertion) order and emits a marker for every tracked
reconciliation. -/
def genFinalRecs (d : Data) (last : List (Nat × Option Nat)) : List String :=
  catMap
    (fun i =>
      match lookupA last i with
      | some (some r) => genReconciliation d (recGet d r)
      | _ => [])
    (last.map Prod.fst)

/-- `Data.generate_output`: commodities, accounts, opening balances, the
transaction stream with interleaved markers, then the trailing markers. -/
def Data.generate_output (d : Data) : Except String (List String) :=
  match genOpening d with
  | .error e => .error e
  | .ok secO =>
    match genTxns d (initLast d) with
    | .error e => .error e
    | .ok st =>
      .ok (genCommodities d ++ genAccounts d ++ secO ++ st.1 ++ genFinalRecs d st.2)

/-- Trailing-marker flush following the spec's words instead of the source:
the spec requires the trailing reconciliation markers in ascending account
identity-number order, so this variant iterates the tracker keys sorted
ascending.  It exists only to be compared with `genFinalRecs`. -/
def genFinalRecsAsc (d : Data) (last : List (Nat × Option Nat)) : List String :=
  catMap
    (fun i =>
      match lookupA last i with
      | some (some r) => genReconciliation d (recGet d r)
      | _ => [])
    (sortNats (last.map Prod.fst))

/-- `Data.generate_output` with the spec's ascending trailing flush substituted
for the source's insertion-order flush; identical otherwise. -/
def generate_output_asc (d : Data) : Except String (List String) :=
  match genOpening d with
  | .error e => .error e
  | .ok secO =>
    match genTxns d (initLast d) with
    | .error e => .error e
    | .ok st =>
      .ok (genCommodities d ++ genAccounts d ++ secO ++ st.1 ++ genFinalRecsAsc d st.2)

/-- Concrete records used by the scenario theorems. -/
def cur1 : Currency :=
  { number := 1, name := "Canadian Dollar", symbol := some "$", abbreviation := "CAD",
    ledger_symbol := "$" }

def acc1 : Account :=
  { number := 1, name := "Chequing", currency := 1, initial_balance := 0, kind := 0,
    branch_code := none, account_number := none }

def acc2 : Account :=
  { number := 2, name := "Savings", currency := 1, initial_balance := 0, kind := 0,
    branch_code := none, account_number := none }

def party1 : Party := ⟨1, "Grocer"⟩

def cat1 : Category := { number := 1, name := "Food", is_expenses := true, sub_categories := [] }

/-- The transfer pair of the spec scenario: transaction 5 and transaction 9
are each other's contras, in accounts 1 and 2. -/
def t5 : Transaction :=
  { defaultTransaction with
    number := 5, account := 1, date := some 3, currency := 1, amount := -2500,
    party := some 1, contra_transaction := some 9 }

def t9 : Transaction :=
  { defaultTransaction with
    number := 9, account := 2, date := some 3, currency := 1, amount := 2500,
    party := some 1, contra_transaction := some 5 }

def d59 : Data :=
  { accounts := [(1, acc1), (2, acc2)], categories := [], currencies := [(1, cur1)],
    parties := [(1, party1)], reconciles := [], txnKeys := [5, 9],
    heap := [(5, t5), (9, t9)] }

/-- The collapse of `d59`: only transaction 5 survives in the dict. -/
def d5after : Data := { d59 with txnKeys := [5] }

/-- A single plain transaction (no split, no transfer): the Collapser removes
nothing here. -/
def tP : Transaction :=
  { defaultTransaction with
    number := 1, account := 1, date := some 2, currency := 1, amount := -100,
    party := some 1, category := some 1 }

def dPlain : Data :=
  { accounts := [(1, acc1)], categories := [(1, cat1)], currencies := [(1, cur1)],
    parties := [(1, party1)], reconciles := [], txnKeys := [1], heap := [(1, tP)] }

/-- A resolved graph with an asymmetric contra whose back pointer is `None`:
transaction 1 names 2 as contra, transaction 2 has no contra. -/
def tA1 : Transaction :=
  { defaultTransaction with
    number := 1, account := 1, date := some 2, currency := 1, amount := -100,
    party := some 1, contra_transaction := some 2 }

def tA2 : Transaction :=
  { defaultTransaction with
    number := 2, account := 2, date := some 2, currency := 1, amount := 100,
    party := some 1, category := some 1 }

def dAsym : Data :=
  { accounts := [(1, acc1), (2, acc2)], categories := [(1, cat1)],
    currencies := [(1, cur1)], parties := [(1, party1)], reconciles := [],
    txnKeys := [1, 2], heap := [(1, tA1), (2, tA2)] }

/-- An account with opening balance 100.00 (10000 cents). -/
def accB : Account :=
  { number := 1, name := "Chequing", currency := 1, initial_balance := 10000, kind := 0,
    branch_code := none, account_number := none }

/-- The round-trip scenario of the spec: opening balance 100.00 and an empty
transaction mapping. -/
def dEmptyTx : Data :=
  { accounts := [(1, accB)], categories := [], currencies := [(1, cur1)],
    parties := [], reconciles := [], txnKeys := [], heap := [] }

/-- Same opening balance with one dated transaction present. -/
def dW3 : Data :=
  { accounts := [(1, accB)], categories := [(1, cat1)], currencies := [(1, cur1)],
    parties := [(1, party1)], reconciles := [], txnKeys := [1], heap := [(1, tP)] }

/-- Reconciliation-interleaving scenario: transactions 1 and 2 reconciled
under Reconcile 1 ("R1"), transaction 3 under Reconcile 2 ("R2"), account 1. -/
def rec1 : Reconcile :=
  { number := 1, name := "R1", account := 1, date := some 10, balance := -3000 }

def rec2 : Reconcile :=
  { number := 2, name := "R2", account := 1, date := some 20, balance := -6000 }

def tC1 : Transaction :=
  { defaultTransaction with
    number := 1, account := 1, date := some 5, currency := 1, amount := -1000,
    party := some 1, category := some 1, reconciled := true, reconciliation := some 1 }

def tC2 : Transaction :=
  { defaultTransaction with
    number := 2, account := 1, date := some 6, currency := 1, amount := -2000,
    party := some 1, category := some 1, reconciled := true, reconciliation := some 1 }

def tC3 : Transaction :=
  { defaultTransaction with
    number := 3, account := 1, date := some 7, currency := 1, amount := -3000,
    party := some 1, category := some 1, reconciled := true, reconciliation := some 2 }

def dC4 : Data :=
  { accounts := [(1, acc1)], categories := [(1, cat1)], currencies := [(1, cur1)],
    parties := [(1, party1)], reconciles := [(1, rec1), (2, rec2)],
    txnKeys := [1, 2, 3], heap := [(1, tC1), (2, tC2), (3, tC3)] }

/-- Accounts loaded in the order 2, 1 (descending), each with a pending
reconciliation at the end of rendering. -/
def rec5 : Reconcile :=
  { number := 5, name := "RA", account := 2, date := some 10, balance := 1000 }

def rec6 : Reconcile :=
  { number := 6, name := "RB", account := 1, date := some 11, balance := 2000 }

def tR1 : Transaction :=
  { defaultTransaction with
    number := 1, account := 2, date := some 4, currency := 1, amount := 1000,
    party := some 1, category := some 1, reconciled := true, reconciliation := some 5 }

def tR2 : Transaction :=
  { defaultTransaction with
    number := 2, account := 1, date := some 5, currency := 1, amount := 2000,
    party := some 1, category := some 1, reconciled := true, reconciliation := some 6 }

def dRev : Data :=
  { accounts := [(2, acc2), (1, acc1)], categories := [(1, cat1)],
    currencies := [(1, cur1)], parties := [(1, party1)],
    reconciles := [(5, rec5), (6, rec6)], txnKeys := [1, 2],
    heap := [(1, tR1), (2, tR2)] }

/-- A small graph with accounts in ascending order and no transactions. -/
def dW9 : Data :=
  { accounts := [(1, acc1)], categories := [], currencies := [(1, cur1)],
    parties := [], reconciles := [], txnKeys := [], heap := [] }

/-- Loader scenario: a child transaction record (key 1) appears before its
reconciled mother (key 2, reconciled against Reconcile 7). -/
def envL : LoadEnv :=
  { accounts := [1], categories := [], currencies := [1], parties := [],
    reconciles := [7], catSubs := [] }

def childL : TxnL :=
  { number := 1, account := RRef.raw 1, date := none, currency := RRef.raw 1,
    amount := -500, change_between := false, exchange_rate := qOne, party := none,
    category := none, sub_category := none, is_split := false, notes := none,
    reconciled := false, reconciliation := none, bank_reference := none,
    contra_transaction := none, mother := some (RRef.raw 2), children := [] }

def motherL : TxnL :=
  { number := 2, account := RRef.raw 1, date := some 77, currency := RRef.raw 1,
    amount := -500, change_between := false, exchange_rate := qOne, party := none,
    category := none, sub_category := none, is_split := true, notes := none,
    reconciled := true, reconciliation := some (RRef.raw 7), bank_reference := none,
    contra_transaction := none, mother := none, children := [] }

def stChildFirst : List (Nat × TxnL) := [(1, childL), (2, motherL)]

/-- A raw transaction record whose five optional reference attributes are all
the integer 0. -/
def rawW : TxnRaw :=
  { Ac := 1, Nb := 3, Dt := some 9, Cu := 1, Am := -1234, Exb := 0, Exr := qOne,
    Exf := 0, Pa := 0, Ca := 0, Sca := 0, Br := 0, No := "(null)", Ma := 0,
    Re := 0, Ba := "(null)", Trt := 0, Mo := 0 }

/-- Two currencies sharing the symbol `$`, numbers 1 and 2. -/
def curA : Currency :=
  { number := 1, name := "Canadian Dollar", symbol := some "$", abbreviation := "CAD",
    ledger_symbol := "" }

def curB : Currency :=
  { number := 2, name := "US Dollar", symbol := some "$", abbreviation := "USD",
    ledger_symbol := "" }

def cs8 : List (Nat × Currency) := [(1, curA), (2, curB)]

theorem exBind_eq {ε α β : Type} (x : Except ε α) (f : α → Except ε β) :
    x >>= f = match x with | .ok a => f a | .error e => .error e := by
  cases x <;> rfl

theorem delFold_subset :
    ∀ (l : List Nat) (ks r : List Nat), l.foldlM delKey ks = Except.ok r → r ⊆ ks := by
  intro l
  induction l with
  | nil =>
      intro ks r h
      simp only [List.foldlM_nil] at h
      cases h
      exact fun _ hx => hx
  | cons k l ih =>
      intro ks r h
      simp only [List.foldlM_cons] at h
      rw [exBind_eq] at h
      by_cases hk : k ∈ ks
      · simp only [delKey, if_pos hk] at h
        exact fun x hx => List.erase_subset _ _ (ih _ _ h hx)
      · simp [delKey, if_neg hk] at h

theorem delFold_nodup :
    ∀ (l : List Nat) (ks r : List Nat), l.foldlM delKey ks = Except.ok r →
      ks.Nodup → r.Nodup := by
  intro l
  induction l with
  | nil =>
      intro ks r h hnd
      simp only [List.foldlM_nil] at h
      cases h
      exact hnd
  | cons k l ih =>
      intro ks r h hnd
      simp only [List.foldlM_cons] at h
      rw [exBind_eq] at h
      by_cases hk : k ∈ ks
      · simp only [delKey, if_pos hk] at h
        exact ih _ _ h (hnd.erase k)
      · simp [delKey, if_neg hk] at h

theorem delFold_not_mem :
    ∀ (l : List Nat) (ks r : List Nat), l.foldlM delKey ks = Except.ok r →
      ks.Nodup → ∀ x ∈ l, x ∉ r := by
  intro l
  induction l with
  | nil => intro ks r _ _ x hx; cases hx
  | cons k l ih =>
      intro ks r h hnd x hx
      simp only [List.foldlM_cons] at h
      rw [exBind_eq] at h
      by_cases hk : k ∈ ks
      · simp only [delKey, if_pos hk] at h
        rcases List.mem_cons.mp hx with rfl | hxl
        · intro hxr
          have hsub := delFold_subset _ _ _ h
          have : x ∈ ks.erase x := hsub hxr
          exact absurd ((hnd.mem_erase_iff).mp this).1 (by simp)
        · exact ih _ _ h (hnd.erase k) x hxl
      · simp [delKey, if_neg hk] at h

theorem delFold_error_of_missing :
    ∀ (l : List Nat) (ks : List Nat) (x : Nat), x ∈ l → x ∉ ks →
      ∀ r, l.foldlM delKey ks ≠ Except.ok r := by
  intro l
  induction l with
  | nil => intro ks x hx; cases hx
  | cons k l ih =>
      intro ks x hx hxk r h
      simp only [List.foldlM_cons] at h
      rw [exBind_eq] at h
      by_cases hk : k ∈ ks
      · simp only [delKey, if_pos hk] at h
        rcases List.mem_cons.mp hx with rfl | hxl
        · exact hxk hk
        · exact ih _ x hxl (fun hc => hxk (List.erase_subset _ _ hc)) r h
      · simp [delKey, if_neg hk] at h

/-- One step of the step-2 scan (named for the proofs below; `step2Set`
unfolds to folding it). -/
def step2Step (d : Data) (s : List Nat) (i : Nat) : List Nat :=
  if i ∈ s then s
  else
    match (heapGet d i).contra_transaction with
    | some c => insertSet s c
    | none => s

theorem step2Set_eq_fold (d : Data) (ks : List Nat) :
    step2Set d ks = ks.foldl (step2Step d) [] := rfl

theorem subset_step2Step (d : Data) (s : List Nat) (i : Nat) : s ⊆ step2Step d s i := by
  intro x hx
  unfold step2Step
  by_cases h : i ∈ s
  · simpa [h]
  · simp only [if_neg h]
    cases (heapGet d i).contra_transaction with
    | none => exact hx
    | some c =>
        simp only [insertSet]
        by_cases hc : c ∈ s
        · simpa [hc]
        · simp [hc, List.mem_append, hx]

theorem step2_fold_mono (d : Data) :
    ∀ (ks : List Nat) (s : List Nat), s ⊆ ks.foldl (step2Step d) s := by
  intro ks
  induction ks with
  | nil => intro s x hx; exact hx
  | cons k ks ih =>
      intro s x hx
      exact ih (step2Step d s k) (subset_step2Step d s k hx)

theorem step2_fold_spec (d : Data) :
    ∀ (ks : List Nat) (s : List Nat) (a c : Nat), a ∈ ks →
      (heapGet d a).contra_transaction = some c →
      a ∉ ks.foldl (step2Step d) s → c ∈ ks.foldl (step2Step d) s := by
  intro ks
  induction ks with
  | nil => intro s a c ha; cases ha
  | cons k ks ih =>
      intro s a c ha hcon hnot
      rcases List.mem_cons.mp ha with rfl | hal
      · have has : a ∉ s := fun hc =>
          hnot (step2_fold_mono d ks (step2Step d s a) (subset_step2Step d s a hc))
        have hstep : step2Step d s a = insertSet s c := by
          unfold step2Step
          simp [has, hcon]
        have : c ∈ step2Step d s a := by
          rw [hstep]
          unfold insertSet
          by_cases hc : c ∈ s
          · simp [hc]
          · simp [hc]
        exact step2_fold_mono d ks _ this
      · exact ih _ a c hal hcon hnot

theorem checkFold_true (f : Nat → List String) :
    ∀ (ks : List Nat) (acc : List String × Bool),
      (checkFold f ks acc).2 = true → acc.2 = true ∧ ∀ k ∈ ks, f k = [] := by
  intro ks
  induction ks with
  | nil => intro acc h; exact ⟨h, by intro k hk; cases hk⟩
  | cons k ks ih =>
      intro acc h
      simp only [checkFold, List.foldl_cons] at h
      have h' := ih _ h
      by_cases he : (f k).isEmpty
      · refine ⟨by simpa [he] using h'.1, ?_⟩
        intro x hx
        rcases List.mem_cons.mp hx with rfl | hxl
        · exact List.isEmpty_iff.mp he
        · exact h'.2 x hxl
      · exact absurd h'.1 (by simp [he])

theorem checkFoldE_true (f : Nat → Except String (List String)) :
    ∀ (ks : List Nat) (acc r : List String × Bool),
      checkFoldE f ks acc = Except.ok r → r.2 = true → acc.2 = true := by
  intro ks
  induction ks with
  | nil =>
      intro acc r h ht
      simp only [checkFoldE] at h
      cases h
      exact ht
  | cons k ks ih =>
      intro acc r h ht
      simp only [checkFoldE] at h
      cases hf : f k with
      | error e => rw [hf] at h; cases h
      | ok ms =>
          rw [hf] at h
          have := ih _ _ h ht
          by_cases he : ms.isEmpty
          · simpa [he] using this
          · exact absurd this (by simp [he])

theorem checkFold7_true (d : Data) :
    ∀ (recs : List (Nat × Reconcile)) (seen : List (Nat × List (Option Nat × String)))
      (acc : List String × Bool),
      (checkFold7Go d recs seen acc).2 = true → acc.2 = true := by
  intro recs
  induction recs with
  | nil => intro seen acc h; exact h
  | cons p rest ih =>
      intro seen acc h
      simp only [checkFold7Go] at h
      have h' := ih _ _ h
      by_cases he :
        (match lookupD ((lookupA seen ((accGet d p.2.account).number)).getD []) p.2.date with
          | some prev =>
            let rn := p.2.name
            let ran := (accGet d p.2.account).name
            let rds := dateStr p.2.date
            [s!"Reconciliation {rn} in account {ran} on date {rds} happened on the same day as reconciliation {prev}."]
          | none => ([] : List String)).isEmpty
      · simpa [he] using h'
      · exact absurd h' (by simp [he])

/-- The facts the loader establishes about the transaction dict: keys are
unique, and a transaction with a mother is registered under its own number in
the mother's child mapping with the mother present in the dict. -/
def wfTxnKeys (d : Data) : Bool :=
  decide d.txnKeys.Nodup &&
  d.txnKeys.all (fun k =>
    match (heapGet d k).mother with
    | none => true
    | some m => decide (m ∈ d.txnKeys) && decide (k ∈ (heapGet d m).children))

theorem wf_nodup {d : Data} (h : wfTxnKeys d = true) : d.txnKeys.Nodup := by
  unfold wfTxnKeys at h
  exact of_decide_eq_true (Bool.and_elim_left h)

theorem wf_mother {d : Data} (h : wfTxnKeys d = true) :
    ∀ k ∈ d.txnKeys, ∀ m, (heapGet d k).mother = some m →
      m ∈ d.txnKeys ∧ k ∈ (heapGet d m).children := by
  unfold wfTxnKeys at h
  have hall := Bool.and_elim_right h
  intro k hk m hm
  have := List.all_eq_true.mp hall k hk
  rw [hm] at this
  simp only [Bool.and_eq_true, decide_eq_true_eq] at this
  exact this

/-- Inversion of a successful `Data.clean`: the two deletion folds succeeded
and only the transaction-dict key list changed. -/
theorem clean_inv {d d' : Data} (h : Data.clean d = Except.ok d') :
    ∃ k1, (splitRemovals d).foldlM delKey d.txnKeys = Except.ok k1 ∧
      (step2Set d (sortNats k1)).foldlM delKey k1 = Except.ok d'.txnKeys ∧
      d' = { d with txnKeys := d'.txnKeys } := by
  unfold Data.clean at h
  split at h
  · cases h
  · rename_i k1 h1
    split at h
    · cases h
    · rename_i k2 h2
      cases h
      exact ⟨k1, h1, h2, rfl⟩

/-- A passing `Data.check` forces every check-2 finding list to be empty. -/
theorem check_loop2_empty {d : Data} {fs : List String}
    (h : Data.check d = Except.ok (fs, true)) :
    ∀ k ∈ sortNats d.txnKeys, msgs2 d k = [] := by
  unfold Data.check at h
  dsimp only at h
  split at h
  · cases h
  · rename_i a3 hE
    have h9 : (checkFold (msgs9 d) (sortNats d.txnKeys)
        (checkFold (msgs8 d) (sortNats d.txnKeys)
          (checkFold7Go d d.reconciles []
            (checkFold (msgs6 d) (sortNats d.txnKeys)
              (checkFold (msgs5 d) (sortNats (d.categories.map Prod.fst))
                (checkFold (msgs4 d) (sortNats d.txnKeys) a3)))))).2 = true := by
      injection h with hxy
      rw [hxy]
    have t8 := (checkFold_true _ _ _ h9).1
    have t7 := (checkFold_true _ _ _ t8).1
    have t6 := checkFold7_true d _ _ _ t7
    have t5 := (checkFold_true _ _ _ t6).1
    have t4 := (checkFold_true _ _ _ t5).1
    have t3 := (checkFold_true _ _ _ t4).1
    have t2 := checkFoldE_true _ _ _ _ hE t3
    exact (checkFold_true _ _ _ t2).2

/-- On a graph passing validation, a transaction is a split iff it has
children (check 2). -/
theorem check_split_iff_children {d : Data} {fs : List String}
    (h : Data.check d = Except.ok (fs, true)) :
    ∀ k ∈ d.txnKeys, ((heapGet d k).is_split = true ↔ (heapGet d k).children ≠ []) := by
  intro k hk
  have h2 := check_loop2_empty h k (mem_sortNats.mpr hk)
  unfold msgs2 at h2
  by_cases hs : (heapGet d k).is_split = true <;>
    by_cases hc : (heapGet d k).children = [] <;>
      simp [hs, hc] at h2 ⊢

/-- C8: a currency's display symbol is its abbreviation if it has no symbol or
some other currency with a strictly smaller identity number shares the same
symbol, and otherwise is its symbol; hence among currencies sharing a symbol
exactly the one with the smallest identity number takes the symbol branch
(`Currency.resolve_references`). -/
theorem currency_display_symbol :
    ∀ (cs : List (Nat × Currency)) (c : Currency) (s : String),
      (c.symbol = none → ledgerSymbolOf c cs = c.abbreviation) ∧
      (c.symbol = some s →
        ((∃ p ∈ cs, p.2.number < c.number ∧ p.2.symbol = some s) →
          ledgerSymbolOf c cs = c.abbreviation) ∧
        ((∀ p ∈ cs, p.2.number < c.number → p.2.symbol ≠ some s) →
          ledgerSymbolOf c cs = s)) := by
  intro cs c s
  constructor
  · intro hnone
    unfold ledgerSymbolOf
    simp [hnone]
  · intro hsome
    constructor
    · rintro ⟨p, hp, hlt, hsym⟩
      unfold ledgerSymbolOf
      have hany : cs.any
          (fun p => decide (p.2.number < c.number) && p.2.symbol == c.symbol) = true := by
        refine List.any_eq_true.mpr ⟨p, hp, ?_⟩
        simp [hlt, hsym, hsome]
      simp [hany]
    · intro hno
      unfold ledgerSymbolOf
      have hany : cs.any
          (fun p => decide (p.2.number < c.number) && p.2.symbol == c.symbol) = false := by
        cases hq : cs.any
            (fun p => decide (p.2.number < c.number) && p.2.symbol == c.symbol) with
        | false => rfl
        | true =>
            obtain ⟨p, hp, hcond⟩ := List.any_eq_true.mp hq
            simp only [Bool.and_eq_true, decide_eq_true_eq, beq_iff_eq, hsome] at hcond
            exact absurd hcond.2 (hno p hp hcond.1)
      rw [hany, hsome]
      simp

/-- C10: `Transaction.__init__` stores `None` for a Party, Category,
SubCategory, contra-transaction or mother attribute equal to the integer 0
(`int(...) or None`), so no transaction ever references identity number 0
through these attributes, and resolving such a field looks nothing up (it
succeeds even against empty mappings). -/
theorem zero_sentinel_refs :
    ∀ (r : TxnRaw) (t : TxnL), txnInit r = Except.ok t →
      (t.party = if r.Pa = 0 then none else some (RRef.raw r.Pa)) ∧
      (t.category = if r.Ca = 0 then none else some (RRef.raw r.Ca)) ∧
      (t.sub_category = if r.Sca = 0 then none else some (RRef.raw r.Sca)) ∧
      (t.contra_transaction = if r.Trt = 0 then none else some (RRef.raw r.Trt)) ∧
      (t.mother = if r.Mo = 0 then none else some (RRef.raw r.Mo)) ∧
      t.party ≠ some (RRef.raw 0) ∧
      t.category ≠ some (RRef.raw 0) ∧
      t.sub_category ≠ some (RRef.raw 0) ∧
      t.contra_transaction ≠ some (RRef.raw 0) ∧
      t.mother ≠ some (RRef.raw 0) ∧
      (r.Pa = 0 → resolveOptRef [] t.party = Except.ok none) ∧
      (r.Ca = 0 → resolveOptRef [] t.category = Except.ok none) ∧
      (r.Trt = 0 → resolveOptRef [] t.contra_transaction = Except.ok none) ∧
      (r.Mo = 0 → resolveOptRef [] t.mother = Except.ok none) := by
  intro r t h
  unfold txnInit at h
  split at h
  · cases h
  split at h
  · cases h
  split at h
  · cases h
  split at h
  · cases h
  cases h
  refine ⟨rfl, rfl, rfl, rfl, rfl, ?_, ?_, ?_, ?_, ?_, ?_, ?_, ?_, ?_⟩
  · by_cases hp : r.Pa = 0 <;> simp [hp]
  · by_cases hp : r.Ca = 0 <;> simp [hp]
  · by_cases hp : r.Sca = 0 <;> simp [hp]
  · by_cases hp : r.Trt = 0 <;> simp [hp]
  · by_cases hp : r.Mo = 0 <;> simp [hp]
  · intro hp; simp [hp, resolveOptRef]
  · intro hp; simp [hp, resolveOptRef]
  · intro hp; simp [hp, resolveOptRef]
  · intro hp; simp [hp, resolveOptRef]

/-- Witness for C10 at the concrete record `rawW` whose five optional
reference attributes are all 0. -/
theorem zero_sentinel_refs_witness :
    ∃ t, txnInit rawW = Except.ok t ∧
      (t.party = if rawW.Pa = 0 then none else some (RRef.raw rawW.Pa)) ∧
      t.party ≠ some (RRef.raw 0) ∧ t.mother ≠ some (RRef.raw 0) := by
  refine ⟨_, rfl, ?_⟩
  have h := zero_sentinel_refs rawW _ rfl
  exact ⟨h.1, h.2.2.2.2.2.1, h.2.2.2.2.2.2.2.2.2.1⟩

/-- C5 (code bug): resolving the transaction records of `stChildFirst`, where
the child (key 1) precedes its reconciled mother (key 2), does register the
child in the mother's child mapping, inherit the mother's date and copy the
mother's reconciled flag — but the copied reconciliation field is the mother's
still-unresolved raw integer 7, while the mother ends with the resolved
reference, so the two do not match (and any later attribute access on the
child's reconciliation would crash). -/
theorem child_reconciliation_not_inherited :
    resolveTxns envL stChildFirst = Except.ok
      [(1, { childL with
              account := RRef.res 1, currency := RRef.res 1,
              mother := some (RRef.res 2), date := some 77, reconciled := true,
              reconciliation := some (RRef.raw 7) }),
       (2, { motherL with
              account := RRef.res 1, currency := RRef.res 1,
              reconciliation := some (RRef.res 7), children := [1] })] ∧
    some (RRef.raw 7) ≠ some (RRef.res 7) :=
  ⟨rfl, by decide⟩

/-- C1 (code bug): on the resolved graph `dAsym` (transaction 1 has contra 2,
transaction 2 has no contra) the validator crashes with `AttributeError`
while formatting the check-3 finding (it reads `.number` on the contra's
`None` contra), so no verdict and no findings list are returned. -/
theorem check_crashes_on_asymmetric_contra :
    Data.check dAsym = Except.error "AttributeError: NoneType has no attribute number" := rfl

/-- C7: on a graph containing only transactions 5 and 9 that are each other's
contras, the Collapser retains exactly the lower-numbered leg: the ascending
scan visits 5 first, marks its contra 9 removed, and leaves the dict with the
single key 5 (the heap objects are untouched). -/
theorem transfer_folding_keeps_lower_leg :
    Data.clean d59 = Except.ok d5after ∧ d5after.txnKeys = [5] ∧
    (heapGet d59 5).contra_transaction = some 9 ∧
    (heapGet d59 9).contra_transaction = some 5 :=
  ⟨rfl, rfl, rfl, rfl⟩

/-- C2 (counterexample): the validated transfer graph `d59` collapses to the
single transaction 5, but running the Collapser again on that output raises
`KeyError: 9` — the surviving leg still references the deleted contra, whose
key the second transfer-folding pass tries to delete again — so collapsing is
not idempotent. -/
theorem collapse_not_idempotent :
    Data.check d59 = Except.ok ([], true) ∧
    Data.clean d59 = Except.ok d5after ∧
    d5after.txnKeys ≠ d59.txnKeys ∧
    Data.clean d5after = Except.error "KeyError: 9" :=
  ⟨rfl, rfl, by decide, rfl⟩

/-- C2 (amended): re-running the Collapser on its own output is a no-op
whenever the first run removed no transactions; when the first run did remove
a transaction the rerun can instead fail with a `KeyError` (see the
counterexample). -/
theorem collapse_rerun_noop (d d' : Data) (h : Data.clean d = Except.ok d')
    (hsame : d'.txnKeys = d.txnKeys) : Data.clean d' = Except.ok d' := by
  obtain ⟨k1, h1, h2, hshape⟩ := clean_inv h
  have hdd : d' = d := by rw [hshape, hsame]
  rw [hdd] at h ⊢
  exact h

/-- Witness for C2's amended theorem on the plain one-transaction graph, where
the Collapser removes nothing. -/
theorem collapse_rerun_noop_witness :
    Data.clean dPlain = Except.ok dPlain ∧ dPlain.txnKeys = dPlain.txnKeys :=
  ⟨collapse_rerun_noop dPlain dPlain rfl rfl, rfl⟩

/-- Witness for C8 on two currencies sharing the symbol `$`: the
smaller-numbered one displays the symbol, the other its abbreviation. -/
theorem currency_display_symbol_witness :
    curB.symbol = some "$" ∧ curA.symbol = some "$" ∧
    ledgerSymbolOf curB cs8 = curB.abbreviation ∧ ledgerSymbolOf curA cs8 = "$" := by
  refine ⟨rfl, rfl, ?_, ?_⟩
  · exact ((currency_display_symbol cs8 curB "$").2 rfl).1
      ⟨(1, curA), by decide, by decide, rfl⟩
  · exact ((currency_display_symbol cs8 curA "$").2 rfl).2 (by decide)

/-- C6: for a well-formed graph that passes validation, a successful collapse
leaves no two surviving transactions that are contras of each other and no
surviving transaction whose mother also survives (in fact the proof of the
second half shows no survivor has a mother at all). -/
theorem clean_postcondition (d d' : Data) (fs : List String)
    (hwf : wfTxnKeys d = true)
    (hchk : Data.check d = Except.ok (fs, true))
    (hcl : Data.clean d = Except.ok d') :
    (∀ a ∈ d'.txnKeys, ∀ b ∈ d'.txnKeys,
        (heapGet d' a).contra_transaction = some b →
        (heapGet d' b).contra_transaction = some a → False) ∧
    (∀ k ∈ d'.txnKeys, ∀ m ∈ d'.txnKeys, (heapGet d' k).mother = some m → False) := by
  obtain ⟨k1, h1, h2, hshape⟩ := clean_inv hcl
  have hheap : ∀ x, heapGet d' x = heapGet d x := by
    intro x; rw [hshape]; rfl
  have hnd : d.txnKeys.Nodup := wf_nodup hwf
  have hnd1 : k1.Nodup := delFold_nodup _ _ _ h1 hnd
  have hsub1 : k1 ⊆ d.txnKeys := delFold_subset _ _ _ h1
  have hsub2 : d'.txnKeys ⊆ k1 := delFold_subset _ _ _ h2
  constructor
  · intro a ha b hb hab _hba
    have hak1 : a ∈ k1 := hsub2 ha
    have hanot : a ∉ step2Set d (sortNats k1) := by
      intro hc
      exact delFold_not_mem _ _ _ h2 hnd1 a hc ha
    have hconA : (heapGet d a).contra_transaction = some b := by
      rw [← hheap a]; exact hab
    have hbset : b ∈ step2Set d (sortNats k1) := by
      rw [step2Set_eq_fold] at hanot ⊢
      exact step2_fold_spec d _ _ a b (mem_sortNats.mpr hak1) hconA hanot
    exact delFold_not_mem _ _ _ h2 hnd1 b hbset hb
  · intro k hk m hm hmother
    have hkd : k ∈ d.txnKeys := hsub1 (hsub2 hk)
    have hmo : (heapGet d k).mother = some m := by rw [← hheap k]; exact hmother
    obtain ⟨hmd, hchild⟩ := wf_mother hwf k hkd m hmo
    have hsplit : (heapGet d m).is_split = true :=
      (check_split_iff_children hchk m hmd).mpr
        (by intro hnil; rw [hnil] at hchild; cases hchild)
    have hkrem : k ∈ splitRemovals d := by
      unfold splitRemovals
      refine mem_catMap.mpr ⟨m, hmd, ?_⟩
      simp only [hsplit, if_true]
      exact mem_catMap.mpr ⟨k, hchild, by simp⟩
    exact delFold_not_mem _ _ _ h1 hnd k hkrem (hsub2 hk)

/-- Witness for C6 on the validated transfer graph `d59`. -/
theorem clean_postcondition_witness :
    wfTxnKeys d59 = true ∧ Data.check d59 = Except.ok ([], true) ∧
    Data.clean d59 = Except.ok d5after ∧
    ((∀ a ∈ d5after.txnKeys, ∀ b ∈ d5after.txnKeys,
        (heapGet d5after a).contra_transaction = some b →
        (heapGet d5after b).contra_transaction = some a → False) ∧
     (∀ k ∈ d5after.txnKeys, ∀ m ∈ d5after.txnKeys,
        (heapGet d5after k).mother = some m → False)) :=
  ⟨by decide, rfl, rfl, clean_postcondition d59 d5after [] (by decide) rfl rfl⟩

theorem minAux :
    ∀ (xs : List (Option Nat)) (a : Nat), (∀ x ∈ xs, x ≠ none) →
      ∃ m, xs.foldlM minStep (some a) = Except.ok (some m) ∧
        (m = a ∨ some m ∈ xs) ∧ m ≤ a ∧
        ∀ x ∈ xs, ∀ v, x = some v → m ≤ v := by
  intro xs
  induction xs with
  | nil =>
      intro a _
      exact ⟨a, by simp only [List.foldlM_nil]; rfl, Or.inl rfl, Nat.le_refl a,
        by intro x hx; cases hx⟩
  | cons x xs ih =>
      intro a hall
      cases hx : x with
      | none => exact absurd hx (hall x (by simp))
      | some b =>
          have htail : ∀ y ∈ xs, y ≠ none := fun y hy => hall y (by simp [hy])
          simp only [List.foldlM_cons, hx]
          by_cases hba : b < a
          · obtain ⟨m, hm, hmem, hle, hbound⟩ := ih b htail
            refine ⟨m, ?_, ?_, ?_, ?_⟩
            · have hstep : minStep (some a) (some b) = Except.ok (some b) := by
                simp [minStep, hba]
              rw [hstep, exBind_eq]
              exact hm
            · rcases hmem with rfl | hmm
              · exact Or.inr (by simp [hx])
              · exact Or.inr (by simp [hmm])
            · exact Nat.le_trans hle (Nat.le_of_lt hba)
            · intro y hy v hv
              rcases List.mem_cons.mp hy with rfl | hyl
              · cases hv
                exact hle
              · exact hbound y hyl v hv
          · obtain ⟨m, hm, hmem, hle, hbound⟩ := ih a htail
            refine ⟨m, ?_, ?_, hle, ?_⟩
            · have hstep : minStep (some a) (some b) = Except.ok (some a) := by
                simp [minStep, hba]
              rw [hstep, exBind_eq]
              exact hm
            · rcases hmem with rfl | hmm
              · exact Or.inl rfl
              · exact Or.inr (by simp [hmm])
            · intro y hy v hv
              rcases List.mem_cons.mp hy with rfl | hyl
              · cases hv
                exact Nat.le_trans hle (Nat.le_of_not_lt hba)
              · exact hbound y hyl v hv

/-- `min()` over a non-empty list of present dates succeeds and returns the
minimum. -/
theorem minDates_spec (l : List (Option Nat)) (hne : l ≠ [])
    (hall : ∀ x ∈ l, x ≠ none) :
    ∃ m, minDates l = Except.ok (some m) ∧ some m ∈ l ∧
      ∀ x ∈ l, ∀ v, x = some v → m ≤ v := by
  cases l with
  | nil => exact absurd rfl hne
  | cons x xs =>
      cases hx : x with
      | none => exact absurd hx (hall x (by simp))
      | some a =>
          obtain ⟨m, hm, hmem, hle, hbound⟩ :=
            minAux xs a (fun y hy => hall y (by simp [hy]))
          refine ⟨m, ?_, ?_, ?_⟩
          · unfold minDates
            exact hm
          · rcases hmem with rfl | hmm
            · simp [hx]
            · simp [hmm]
          · intro y hy v hv
            rcases List.mem_cons.mp hy with rfl | hyl
            · cases hv
              exact hle
            · exact hbound y hyl v hv

/-- C3 (counterexample): on the spec's round-trip scenario — one account with
opening balance 100.00 and an empty transaction mapping — the renderer does
not emit the opening-balance transaction: `min()` over the empty date
sequence raises `ValueError` and the run aborts. -/
theorem opening_balance_empty_graph_fails :
    (∃ p ∈ dEmptyTx.accounts, p.2.initial_balance ≠ 0) ∧
    dEmptyTx.txnKeys = [] ∧
    Data.generate_output dEmptyTx =
      Except.error "ValueError: min() arg is an empty sequence" :=
  ⟨⟨(1, accB), by decide, by decide⟩, rfl, rfl⟩

/-- C3 (amended): when some account has a non-zero opening balance and the
transaction mapping is non-empty with every transaction dated, the renderer
emits the Equity:Opening Balance declaration followed by one opening-balance
transaction dated on the earliest transaction date, with one cleared posting
per account with non-zero opening balance (amount = opening balance) and a
balancing Equity posting, right after the commodity and account sections; on
an empty transaction mapping it fails instead (see the counterexample). -/
theorem opening_balance_section (d : Data)
    (hbal : ∃ p ∈ d.accounts, p.2.initial_balance ≠ 0)
    (hne : d.txnKeys ≠ [])
    (hdates : ∀ k ∈ d.txnKeys, (heapGet d k).date ≠ none) :
    ∃ fd, minDates (d.txnKeys.map (fun k => (heapGet d k).date)) = Except.ok (some fd) ∧
      genOpening d = Except.ok (openingLines d (some fd)) ∧
      (∀ k ∈ d.txnKeys, ∀ v, (heapGet d k).date = some v → fd ≤ v) ∧
      (∃ k ∈ d.txnKeys, (heapGet d k).date = some fd) ∧
      (∀ out, Data.generate_output d = Except.ok out →
        ∃ tl, out = genCommodities d ++ genAccounts d ++ openingLines d (some fd) ++ tl) := by
  obtain ⟨p, hp, hpb⟩ := hbal
  have hany : d.accounts.any (fun p => decide (p.2.initial_balance ≠ 0)) = true :=
    List.any_eq_true.mpr ⟨p, hp, by simpa using hpb⟩
  have hne' : d.txnKeys.map (fun k => (heapGet d k).date) ≠ [] := by
    simpa using hne
  have hall : ∀ x ∈ d.txnKeys.map (fun k => (heapGet d k).date), x ≠ none := by
    intro x hx
    obtain ⟨k, hk, rfl⟩ := List.mem_map.mp hx
    exact hdates k hk
  obtain ⟨fd, hmin, hmem, hbound⟩ := minDates_spec _ hne' hall
  have hgen : genOpening d = Except.ok (openingLines d (some fd)) := by
    unfold genOpening
    rw [hany, hmin]
    simp
  refine ⟨fd, hmin, hgen, ?_, ?_, ?_⟩
  · intro k hk v hv
    exact hbound _ (List.mem_map.mpr ⟨k, hk, rfl⟩) v hv
  · obtain ⟨k, hk, hkd⟩ := List.mem_map.mp hmem
    exact ⟨k, hk, hkd⟩
  · intro out hout
    unfold Data.generate_output at hout
    rw [hgen] at hout
    cases hT : genTxns d (initLast d) with
    | error e => rw [hT] at hout; cases hout
    | ok st =>
        rw [hT] at hout
        cases hout
        exact ⟨st.1 ++ genFinalRecs d st.2, by simp⟩

/-- Witness for C3's amended theorem: opening balance 100.00 and a single
dated transaction. -/
theorem opening_balance_section_witness :
    (∃ p ∈ dW3.accounts, p.2.initial_balance ≠ 0) ∧ dW3.txnKeys ≠ [] ∧
    (∀ k ∈ dW3.txnKeys, (heapGet dW3 k).date ≠ none) ∧
    (∃ fd, minDates (dW3.txnKeys.map (fun k => (heapGet dW3 k).date)) = Except.ok (some fd) ∧
      genOpening dW3 = Except.ok (openingLines dW3 (some fd)) ∧
      (∀ k ∈ dW3.txnKeys, ∀ v, (heapGet dW3 k).date = some v → fd ≤ v) ∧
      (∃ k ∈ dW3.txnKeys, (heapGet dW3 k).date = some fd) ∧
      (∀ out, Data.generate_output dW3 = Except.ok out →
        ∃ tl, out = genCommodities dW3 ++ genAccounts dW3 ++
          openingLines dW3 (some fd) ++ tl)) :=
  ⟨⟨(1, accB), by decide, by decide⟩, by decide, by decide,
    opening_balance_section dW3 ⟨(1, accB), by decide, by decide⟩ (by decide) (by decide)⟩

theorem updateAssoc_keys {α : Type} :
    ∀ (l : List (Nat × α)) (k : Nat) (v : α), (lookupA l k).isSome →
      (updateAssoc l k v).map Prod.fst = l.map Prod.fst := by
  intro l
  induction l with
  | nil => intro k v h; simp [lookupA] at h
  | cons p t ih =>
      intro k v h
      obtain ⟨a, b⟩ := p
      by_cases hak : a = k
      · simp [updateAssoc, hak]
      · have ht : (lookupA t k).isSome := by
          simpa [lookupA, hak] using h
        simp [updateAssoc, hak, ih k v ht]

theorem foldlM_pres {α σ : Type} (f : σ → α → Except String σ) (proj : σ → List Nat)
    (hf : ∀ s a s', f s a = Except.ok s' → proj s' = proj s) :
    ∀ (l : List α) (s s' : σ), l.foldlM f s = Except.ok s' → proj s' = proj s := by
  intro l
  induction l with
  | nil =>
      intro s s' h
      simp only [List.foldlM_nil] at h
      cases h
      rfl
  | cons a l ih =>
      intro s s' h
      simp only [List.foldlM_cons] at h
      rw [exBind_eq] at h
      cases hfa : f s a with
      | error e => rw [hfa] at h; cases h
      | ok s1 => rw [hfa] at h; rw [ih _ _ h, hf _ _ _ hfa]

/-- The reconciliation pre-pass only updates tracker values in place, never
its key set. -/
theorem reconPrePass_keys (d : Data) (t : Transaction)
    (last : List (Nat × Option Nat)) (r : List String × List (Nat × Option Nat))
    (h : reconPrePass d t last = Except.ok r) :
    r.2.map Prod.fst = last.map Prod.fst := by
  refine foldlM_pres _ (fun a => a.2.map Prod.fst) ?_ _ _ _ h
  intro s a s' hstep
  dsimp only at hstep
  split at hstep
  · cases hstep
  · rename_i lastV hl
    split at hstep
    · simp only [pure, Except.pure] at hstep
      cases hstep
      exact updateAssoc_keys _ _ _ (by simp [hl])
    · simp only [pure, Except.pure] at hstep
      cases hstep
      rfl

/-- The transaction walk threads the tracker through `reconPrePass` only, so
its key set never changes. -/
theorem genTxns_keys (d : Data) (last0 : List (Nat × Option Nat))
    (st : List String × List (Nat × Option Nat))
    (h : genTxns d last0 = Except.ok st) :
    st.2.map Prod.fst = last0.map Prod.fst := by
  refine foldlM_pres _ (fun a => a.2.map Prod.fst) ?_ _ _ _ h
  intro s i s' hstep
  dsimp only at hstep
  rw [exBind_eq] at hstep
  cases hP : reconPrePass d (heapGet d i) s.2 with
  | error e => rw [hP] at hstep; cases hstep
  | ok pre =>
      rw [hP] at hstep
      dsimp only at hstep
      rw [exBind_eq] at hstep
      cases hB : genOneTxn d (heapGet d i) with
      | error e => rw [hB] at hstep; cases hstep
      | ok body =>
          rw [hB] at hstep
          simp only [pure, Except.pure] at hstep
          cases hstep
          exact reconPrePass_keys d _ _ pre hP

theorem initLast_keys (d : Data) :
    (initLast d).map Prod.fst = d.accounts.map Prod.fst := by
  simp [initLast, List.map_map, Function.comp]

/-- With unique tracker keys, the key-indexed trailing flush visits exactly
the tracker entries in their stored order. -/
theorem genFinalRecs_entries (d : Data) :
    ∀ (l : List (Nat × Option Nat)), (l.map Prod.fst).Nodup →
      genFinalRecs d l =
        catMap
          (fun p => match p.2 with
                    | some r => genReconciliation d (recGet d r)
                    | none => []) l := by
  intro l
  induction l with
  | nil => intro _; rfl
  | cons p t ih =>
      intro hnd
      obtain ⟨k, v⟩ := p
      rw [List.map_cons] at hnd
      have hk : k ∉ t.map Prod.fst := (List.nodup_cons.mp hnd).1
      have hnt : (t.map Prod.fst).Nodup := (List.nodup_cons.mp hnd).2
      unfold genFinalRecs
      simp only [List.map_cons, catMap]
      congr 1
      · cases v <;> simp [lookupA]
      · have hagree : ∀ i ∈ t.map Prod.fst,
            (match lookupA ((k, v) :: t) i with
             | some (some r) => genReconciliation d (recGet d r)
             | _ => ([] : List String)) =
            (match lookupA t i with
             | some (some r) => genReconciliation d (recGet d r)
             | _ => ([] : List String)) := by
          intro i hi
          have hne : k ≠ i := fun hc => hk (hc ▸ hi)
          simp [lookupA, hne]
        rw [catMap_congr hagree]
        exact ih hnt

/-- C9 (amended): after the last transaction the renderer flushes every
account's still-pending tracked reconciliation, iterating the tracker in its
stored order — the order accounts were loaded (the tracker is seeded from
`accounts.keys()` and the walk only updates values in place).  This coincides
with ascending account identity-number order exactly when the accounts were
loaded ascending; the source does not sort here (see the counterexample). -/
theorem trailing_flush_order (d : Data) (out : List String)
    (hnd : (d.accounts.map Prod.fst).Nodup)
    (h : Data.generate_output d = Except.ok out) :
    ∃ secO secT last,
      genOpening d = Except.ok secO ∧
      genTxns d (initLast d) = Except.ok (secT, last) ∧
      last.map Prod.fst = d.accounts.map Prod.fst ∧
      out = genCommodities d ++ genAccounts d ++ secO ++ secT ++ genFinalRecs d last ∧
      genFinalRecs d last =
        catMap
          (fun p => match p.2 with
                    | some r => genReconciliation d (recGet d r)
                    | none => []) last := by
  unfold Data.generate_output at h
  split at h
  · cases h
  · rename_i secO hO
    split at h
    · cases h
    · rename_i st hT
      cases h
      have hkeys : st.2.map Prod.fst = d.accounts.map Prod.fst := by
        rw [genTxns_keys d _ st hT, initLast_keys d]
      refine ⟨secO, st.1, st.2, hO, hT, hkeys, rfl, ?_⟩
      exact genFinalRecs_entries d st.2 (by rw [hkeys]; exact hnd)

/-- Projection of a rendering result to its lines (empty on failure). -/
def exLines (e : Except String (List String)) : List String :=
  match e with
  | .ok l => l
  | .error _ => []

def isOkE (e : Except String (List String)) : Bool :=
  match e with
  | .ok _ => true
  | .error _ => false

/-- C9 (counterexample): on `dRev`, whose accounts were loaded in the order
2, 1, both renderings succeed but the source emits the trailing markers in
load order (account 2's marker before account 1's) while the spec-faithful
ascending variant emits them the other way round — so the trailing flush is
not in ascending account identity-number order. -/
theorem trailing_flush_not_ascending :
    isOkE (Data.generate_output dRev) = true ∧
    isOkE (generate_output_asc dRev) = true ∧
    exLines (Data.generate_output dRev) ≠ exLines (generate_output_asc dRev) :=
  ⟨rfl, rfl, by decide⟩

/-- Witness for C9's amended theorem on a one-account graph. -/
theorem trailing_flush_order_witness :
    (dW9.accounts.map Prod.fst).Nodup ∧
    Data.generate_output dW9 = Except.ok
      ["commodity $\n", "\tnote Canadian Dollar\n", "\n",
       "account Assets:Chequing\n", "\tassert commodity == \"$\"\n", "\n"] ∧
    (∃ secO secT last,
      genOpening dW9 = Except.ok secO ∧
      genTxns dW9 (initLast dW9) = Except.ok (secT, last) ∧
      last.map Prod.fst = dW9.accounts.map Prod.fst ∧
      ["commodity $\n", "\tnote Canadian Dollar\n", "\n",
       "account Assets:Chequing\n", "\tassert commodity == \"$\"\n", "\n"] =
        genCommodities dW9 ++ genAccounts dW9 ++ secO ++ secT ++ genFinalRecs dW9 last ∧
      genFinalRecs dW9 last =
        catMap
          (fun p => match p.2 with
                    | some r => genReconciliation dW9 (recGet dW9 r)
                    | none => []) last) :=
  ⟨by decide, rfl, trailing_flush_order dW9 _ (by decide) rfl⟩

/-- C4: rendering the collapsed graph `dC4` (transactions 1 and 2 reconciled
under "R1", transaction 3 under "R2", all in account 1) walks the
transactions in ascending order tracking the last seen Reconcile per account
and emits exactly one marker for R1 — flushed while processing transaction 3,
i.e. between the last R1 transaction and the first R2 transaction — and one
trailing marker for R2 after the last transaction, as the explicit output
shows (marker lines 17-22 and 27-31). -/
theorem reconciliation_marker_interleaving :
    Data.generate_output dC4 = Except.ok
      ["commodity $\n", "\tnote Canadian Dollar\n", "\n",
       "account Assets:Chequing\n", "\tassert commodity == \"$\"\n", "\n",
       "5 Grocer\n", "\t; Imported from Grisbi transaction 1.\n",
       "\t* Assets:Chequing  $-10.00\n", "\t* Expenses:Food  $10.00\n", "\n",
       "6 Grocer\n", "\t; Imported from Grisbi transaction 2.\n",
       "\t* Assets:Chequing  $-20.00\n", "\t* Expenses:Food  $20.00\n", "\n",
       "10 Reconciliation\n", "\t; Grisbi reconciliation name: R1\n",
       "\t; Includes Grisbi transaction 1\n", "\t; Includes Grisbi transaction 2\n",
       "\t* [Assets:Chequing]  =$-30.00\n", "\n",
       "7 Grocer\n", "\t; Imported from Grisbi transaction 3.\n",
       "\t* Assets:Chequing  $-30.00\n", "\t* Expenses:Food  $30.00\n", "\n",
       "20 Reconciliation\n", "\t; Grisbi reconciliation name: R2\n",
       "\t; Includes Grisbi transaction 3\n", "\t* [Assets:Chequing]  =$-60.00\n",
       "\n"] ∧
    (exLines (Data.generate_output dC4)).count "\t; Grisbi reconciliation name: R1\n" = 1 ∧
    (exLines (Data.generate_output dC4)).count "\t; Grisbi reconciliation name: R2\n" = 1 :=
  ⟨rfl, by decide, by decide⟩
